import Mathlib

/-!
Verification of the draw-history analytics and probability engine of the
KenoNumberPicker repository (src/unnamed/part_000, src/unnamed/part_001),
shallowly embedded in Lean.

Modelling conventions:
* JavaScript numbers are modelled as exact rationals (`ℚ`); integer-valued
  quantities (game keys, counts, gaps) as `Nat`/`Int`.
* A JavaScript `Map` is an insertion-ordered association list; `Map.set`
  updates an existing key in place and appends a fresh key at the end.
* A plain object with integer-like keys (per-day game data) iterates its
  keys in ascending numeric order; `Object.entries(x).sort(cmp)` is the
  stable `Array.prototype.sort`, modelled by `List.insertionSort`.
* String formatting (`toFixed`, percent signs) is presentation only; the
  embedded functions return the exact rational value being formatted.
-/

namespace Keno

/-- Loop of the nested `combinations` helper inside `probabilityOfHitting`
(src/unnamed/part_000 lines 171-180): `result *= (n - i + 1) / i` for
`i = 1 .. k`, in exact rational arithmetic.  Iteration `i` is represented by
the loop index `i - 1` drawn from `List.range k`. -/
def combLoop (n : Int) (k : Nat) : ℚ :=
  (List.range k).foldl (fun result i => result * (((n - i : Int) : ℚ) / ((i : ℚ) + 1))) 1

/-- Function `combinations(n, k)` from `probabilityOfHitting`: returns 0 if `k > n`;
1 if `k === 0 || k === n`; otherwise the multiplicative running product.
For a negative `k` the `for` loop body never executes, so the initial value
of `result` is returned (`Int.toNat` of a negative number is 0, giving the
empty loop). -/
def combinations (n k : Int) : ℚ :=
  if k > n then 0
  else if k = 0 ∨ k = n then 1
  else combLoop n k.toNat

/-- Constant `totalNumbers`: the keno pool size (80). -/
def totalNumbers : Int := 80

/-- Constant `numbersDrawn`: numbers drawn each round (20). -/
def numbersDrawn : Int := 20

/-- Function `probabilityOfHitting(matchCount, spotCount)` (src/unnamed/part_000 lines
169-201): hypergeometric probability with the code's guard order — the
numerator and denominator are computed first, then the edge cases return 0,
then the quotient is returned. -/
def probabilityOfHitting (matchCount spotCount : Int) : ℚ :=
  let numerator := combinations numbersDrawn matchCount *
    combinations (totalNumbers - numbersDrawn) (spotCount - matchCount)
  let denominator := combinations totalNumbers spotCount
  if denominator = 0 then 0
  else if matchCount > spotCount then 0
  else if matchCount > numbersDrawn then 0
  else if spotCount > totalNumbers then 0
  else numerator / denominator

/-- Function `probabilityAcrossGames(matchCount, spotCount, numGames)` (src/unnamed/part_000
lines 203-211): `1 - (1 - singleGameProb) ^ numGames`. -/
def probabilityAcrossGames (matchCount spotCount : Int) (numGames : Nat) : ℚ :=
  1 - (1 - probabilityOfHitting matchCount spotCount) ^ numGames

/-!
Data model.  A draw history (per venue) is a JavaScript object mapping a
game key (an integer-like string) to the array of drawn numbers; we model
it as an association list.  `Object.keys`/`Object.values`/`Object.entries`
iterate integer-like keys in ascending numeric order; the code then applies
the stable `Array.prototype.sort`, modelled by `List.insertionSort`.
-/

/-- History of draws for one venue: an object keyed by game number (or by a
reassigned sequence id), each value the array of drawn numbers. -/
abbrev History := List (Nat × List Nat)

/-- JavaScript `Map.get(k)` (respectively `map.get(k) || d`): the value
stored at the first matching key, or the default `d`. -/
def getAssocD {κ α : Type} [DecidableEq κ] : List (κ × α) → κ → α → α
  | [], _, d => d
  | e :: rest, k, d => if e.1 = k then e.2 else getAssocD rest k d

/-- JavaScript `Map.set(k, v)`: update the first matching key in place, or
append a fresh entry at the end (insertion order preserved). -/
def setAssoc {κ α : Type} [DecidableEq κ] : List (κ × α) → κ → α → List (κ × α)
  | [], k, v => [(k, v)]
  | e :: rest, k, v => if e.1 = k then (e.1, v) :: rest else e :: setAssoc rest k v

/-- Iteration order of `Object.entries` on an object with integer-like keys:
ascending numeric key order. -/
def entriesAsc (h : History) : History :=
  List.insertionSort (fun a b => a.1 ≤ b.1) h

/-- Entry list produced by `Object.entries(locationData).sort((a, b) =>
Number(b[0]) - Number(a[0]))`: the ascending iteration order re-sorted
descending by key ("most recent first"). -/
def entriesDesc (h : History) : History :=
  List.insertionSort (fun a b => b.1 ≤ a.1) (entriesAsc h)

/-- Iteration order of `Object.values` on a history object. -/
def valuesAsc (h : History) : List (List Nat) :=
  (entriesAsc h).map Prod.snd

/-- Count accumulation of `getNumberCounts` (src/unnamed/part_000 lines
506-530): for each game's data array, `numberCounts.set(number,
(numberCounts.get(number) || 0) + 1)`. -/
def numberCountsMap (h : History) : List (Nat × Nat) :=
  (valuesAsc h).foldl
    (fun m gameData => gameData.foldl (fun m number => setAssoc m number (getAssocD m number 0 + 1)) m)
    []

/-- Function `getNumberCounts`: the count map converted to an array and
sorted by `(a, b) => b[1] - a[1]` (descending count, stable). -/
def getNumberCounts (h : History) : List (Nat × Nat) :=
  List.insertionSort (fun a b => b.2 ≤ a.2) (numberCountsMap h)

/-- Multi-date raw data for one venue: an object mapping a date key to that
day's games object.  Date keys are strings in JavaScript, iterated in
insertion order (they are not integer-like); the embedding represents a
date by a totally ordered numeric code (e.g. `yyyymmdd`), which is all the
ordering comparison in the spec-side definition needs. -/
abbrev RawAllData := List (Nat × History)

/-- Function `processKenoData` (src/unnamed/part_000 lines 358-384,
src/unnamed/part_001 lines 51-77), data-shaping core: the date keys are
iterated in reverse insertion order (`Object.keys(jsonData).reverse()`),
each day's games in ascending numeric game-number order, flattening to a
list of `{kenoGameNumber, kenoGameStats}` records; new ids `index + 1` are
then assigned over this order, keeping only the stats. -/
def processKenoData (raw : RawAllData) : History :=
  let flattenedData := raw.reverse.flatMap (fun d => entriesAsc d.2)
  flattenedData.enum.map (fun ig => (ig.1 + 1, ig.2.2))

/-- Modelled from the spec (§3 ordering invariant), for comparison only:
draws ordered by date descending, then by the venue's original per-day game
number descending, with sequence ids 1..N assigned over this order. -/
def processKenoDataSpecOrder (raw : RawAllData) : History :=
  let datesDesc := List.insertionSort (fun a b : Nat × History => b.1 ≤ a.1) raw
  let flattened := datesDesc.flatMap (fun d =>
    List.insertionSort (fun a b : Nat × List Nat => b.1 ≤ a.1) d.2)
  flattened.enum.map (fun ig => (ig.1 + 1, ig.2.2))

/-- Record of `analyzeRecentTrends` (src/unnamed/part_000 lines 750-772). -/
structure TrendRec where
  number : Nat
  recentFrequency : Nat
  momentum : ℚ
deriving DecidableEq

/-- Function `analyzeRecentTrends(location, windowSize = 10)`: the
`windowSize` most recent games (entries sorted descending by game number),
flattened, counted, and sorted descending by `momentum = count /
windowSize`. -/
def analyzeRecentTrends (h : History) (windowSize : Nat) : List TrendRec :=
  let games := ((entriesDesc h).take windowSize).flatMap Prod.snd
  let recentCounts := games.foldl (fun m num => setAssoc m num (getAssocD m num 0 + 1)) []
  List.insertionSort (fun a b => b.momentum ≤ a.momentum)
    (recentCounts.map (fun e =>
      { number := e.1, recentFrequency := e.2, momentum := (e.2 : ℚ) / (windowSize : ℚ) }))

/-- Record of `analyzeNumberGaps` (src/unnamed/part_000 lines 775-817,
src/unnamed/part_001 lines 432-474). -/
structure GapRec where
  number : Nat
  currentGap : Nat
  averageGap : ℚ
  gapRatio : ℚ
deriving DecidableEq

/-- Initial `currentGaps` map of `analyzeNumberGaps`: every pool number
1..80 mapped to gap 0. -/
def initGaps : List (Nat × Nat) := (List.range 80).map (fun i => (i + 1, 0))

/-- Body of the inner `numbers.forEach` of the gap scan: read the current
gap of `num`, append it to `num`'s recorded gap list, and reset the current
gap to 0.  The JavaScript `currentGaps.get(num)` is only defined for pool
numbers 1..80 (the initialised keys); the embedding's default 0 corresponds
to histories whose numbers all lie in the pool, which is the hypothesis
carried by the theorems below. -/
def gapUpd (acc : List (Nat × List Nat) × List (Nat × Nat)) (num : Nat) :
    List (Nat × List Nat) × List (Nat × Nat) :=
  (setAssoc acc.1 num (getAssocD acc.1 num [] ++ [getAssocD acc.2 num 0]),
   setAssoc acc.2 num 0)

/-- One draw of the gap scan: increment every tracked current gap, then
process each of the draw's numbers with `gapUpd`. -/
def gapStep (st : List (Nat × List Nat) × List (Nat × Nat)) (draw : Nat × List Nat) :
    List (Nat × List Nat) × List (Nat × Nat) :=
  let incremented := st.2.map (fun e => (e.1, e.2 + 1))
  draw.2.foldl gapUpd (st.1, incremented)

/-- Scan of `analyzeNumberGaps` over the draws sorted descending by game
number (newest first), producing the `gapAnalysis` and `currentGaps` maps. -/
def gapScan (h : History) : List (Nat × List Nat) × List (Nat × Nat) :=
  (entriesDesc h).foldl gapStep ([], initGaps)

/-- Function `analyzeNumberGaps`: one record per entry of the `gapAnalysis`
map (numbers that appeared at least once), with `averageGap` the mean of the
recorded gaps and `gapRatio = currentGap / averageGap`, sorted descending by
`gapRatio`. -/
def analyzeNumberGaps (h : History) : List GapRec :=
  let st := gapScan h
  List.insertionSort (fun a b => b.gapRatio ≤ a.gapRatio)
    (st.1.map (fun e =>
      { number := e.1
        currentGap := getAssocD st.2 e.1 0
        averageGap := (e.2.sum : ℚ) / (e.2.length : ℚ)
        gapRatio := ((getAssocD st.2 e.1 0 : ℕ) : ℚ) / ((e.2.sum : ℚ) / (e.2.length : ℚ)) }))

/-- Record of `analyzeHotColdPatterns` (src/unnamed/part_000 lines 820-855). -/
structure HotColdRec where
  number : Nat
  weightedScore : ℚ
  recentPerformance : ℚ
deriving DecidableEq

/-- Function `analyzeHotColdPatterns(location, recentWeight = 2)`: the 20
most recent games weighted by `recentWeight`, older games by 1;
`recentPerformance` is the fraction of the recent 20 games containing the
number; sorted descending by `weightedScore`. -/
def analyzeHotColdPatterns (h : History) (recentWeight : ℚ) : List HotColdRec :=
  let games := entriesDesc h
  let recentGames := games.take 20
  let olderGames := games.drop 20
  let afterRecent := recentGames.foldl
    (fun m draw => draw.2.foldl (fun m num => setAssoc m num (getAssocD m num 0 + recentWeight)) m)
    ([] : List (Nat × ℚ))
  let numberAnalysis := olderGames.foldl
    (fun m draw => draw.2.foldl (fun m num => setAssoc m num (getAssocD m num 0 + 1)) m)
    afterRecent
  List.insertionSort (fun a b => b.weightedScore ≤ a.weightedScore)
    (numberAnalysis.map (fun e =>
      { number := e.1
        weightedScore := e.2
        recentPerformance := ((recentGames.filter (fun d => e.1 ∈ d.2)).length : ℚ) / 20 }))

/-- Record of `generatePredictions` (src/unnamed/part_000 lines 858-906).
The JavaScript `score`/`confidence` fields are `toFixed` strings; the
embedding carries the exact rational values being formatted. -/
structure PredRec where
  number : Nat
  score : ℚ
  confidence : ℚ
  recentTrend : ℚ
  gapScore : ℚ
  hotColdScore : ℚ
deriving DecidableEq

/-- JavaScript `Math.max(...values)` over a list.  On the empty list
`Math.max()` is `-Infinity`, which `ℚ` cannot represent; `generatePredictions`
only ever consumes the maximum by mapping over the same (then empty) list,
so the junk value 0 returned here is never used. -/
def maxQ : List ℚ → ℚ
  | [] => 0
  | x :: xs => xs.foldl max x

/-- Helper `normalizeScores(array, scoreKey)` of `generatePredictions`:
divide each entry's score by the maximum score in the set. -/
def normalizeScores {α : Type} (number : α → Nat) (scoreKey : α → ℚ) (l : List α) :
    List (Nat × ℚ) :=
  let m := maxQ (l.map scoreKey)
  l.map (fun x => (number x, scoreKey x / m))

/-- Weighted accumulation of `generatePredictions`:
`combinedScores.set(number, (combinedScores.get(number) || 0) + score * weight)`
for each entry of one normalized metric set. -/
def addWeighted (acc : List (Nat × ℚ)) (data : List (Nat × ℚ)) (weight : ℚ) :
    List (Nat × ℚ) :=
  data.foldl (fun acc e => setAssoc acc e.1 (getAssocD acc e.1 0 + e.2 * weight)) acc

/-- Function `generatePredictions(location)`: normalize the three metric
sets, combine them with weights 0.4 / 0.3 / 0.3, attach each number's raw
metric values (`?.x || 0`), sort descending by combined score and keep the
top 10. -/
def generatePredictions (h : History) : List PredRec :=
  let recentTrends := analyzeRecentTrends h 10
  let gapAnalysis := analyzeNumberGaps h
  let hotCold := analyzeHotColdPatterns h 2
  let normalizedTrends := normalizeScores TrendRec.number TrendRec.momentum recentTrends
  let normalizedGaps := normalizeScores GapRec.number GapRec.gapRatio gapAnalysis
  let normalizedHotCold := normalizeScores HotColdRec.number HotColdRec.weightedScore hotCold
  let combinedScores :=
    addWeighted (addWeighted (addWeighted [] normalizedTrends (4 / 10)) normalizedGaps (3 / 10))
      normalizedHotCold (3 / 10)
  (List.insertionSort (fun a b => b.score ≤ a.score)
    (combinedScores.map (fun e =>
      { number := e.1
        score := e.2
        confidence := e.2 * 100
        recentTrend := ((recentTrends.find? (fun t => t.number == e.1)).map TrendRec.momentum).getD 0
        gapScore := ((gapAnalysis.find? (fun g => g.number == e.1)).map GapRec.gapRatio).getD 0
        hotColdScore :=
          ((hotCold.find? (fun c => c.number == e.1)).map HotColdRec.weightedScore).getD 0 }))).take 10

/-- Lookup `counts.find(item => item.number === num)?.count || 0` against
the FrequencyCounter output (`getNumberCounts`). -/
def freqCount (h : History) (num : Nat) : Nat :=
  (((getNumberCounts h).find? (fun e => e.1 == num)).map Prod.snd).getD 0

/-- Inner two loops (`j`, `k`) of the triple enumeration: all ordered pairs
from the remaining suffix. -/
def pairsFrom : List Nat → List (List Nat)
  | [] => []
  | x :: xs => xs.map (fun y => [x, y]) ++ pairsFrom xs

/-- Triple enumeration of `analyzeNumberCombinations`: all index triples
`i < j < k` of a game's numbers, each canonicalised by ascending numeric
sort (the JavaScript joins the sorted triple into a string key; sorted
triples are used as keys directly here). -/
def triplesFrom : List Nat → List (List Nat)
  | [] => []
  | x :: xs =>
    (pairsFrom xs).map (fun p => List.insertionSort (fun a b => a ≤ b) (x :: p)) ++ triplesFrom xs

/-- Accumulation of the `combinationCounts` map over each game's triples. -/
def comboCountsOf (draws : List (List Nat)) : List (List Nat × Nat) :=
  draws.foldl
    (fun m gameNumbers =>
      (triplesFrom gameNumbers).foldl (fun m combo => setAssoc m combo (getAssocD m combo 0 + 1)) m)
    []

/-- Record of `analyzeNumberCombinations` (src/unnamed/part_000 lines
638-697). -/
structure ComboRec where
  numbers : List Nat
  occurrences : Nat
  confidence : ℚ
  avgIndividualFrequency : ℚ
deriving DecidableEq

/-- Function `analyzeNumberCombinations(location)`: triple counts over the
current history, each combination scored by the sum of its members' counts
from `locationsData[location + 'Counts']` (the FrequencyCounter of the SAME
current history), sorted by count descending then individual score
descending; the top 10 are returned with `confidence = count / totalGames *
100` and `avgIndividualFrequency = individualScore / 3`. -/
def analyzeNumberCombinations (cur : History) : List ComboRec :=
  let combinationCounts := comboCountsOf (valuesAsc cur)
  let withScores := combinationCounts.map (fun e =>
    (e.1, e.2, e.1.foldl (fun sum num => sum + freqCount cur num) 0))
  let sortedCombinations := List.insertionSort
    (fun a b => b.2.1 < a.2.1 ∨ (a.2.1 = b.2.1 ∧ b.2.2 ≤ a.2.2)) withScores
  let totalGames := cur.length
  (sortedCombinations.take 10).map (fun e =>
    { numbers := e.1
      occurrences := e.2.1
      confidence := (e.2.1 : ℚ) / (totalGames : ℚ) * 100
      avgIndividualFrequency := (e.2.2 : ℚ) / 3 })

/-- Function `analyzeNumberCombinationsOfAllData(location)` (src/unnamed/
part_000 lines 1093-1152): identical to `analyzeNumberCombinations` except
that triples are counted over the all-time history
(`allDataFromLocations[location]`) while the individual scores still come
from `locationsData[location + 'Counts']` — the FrequencyCounter of the
CURRENT-DAY history, not of the all-time scope. -/
def analyzeNumberCombinationsOfAllData (allData cur : History) : List ComboRec :=
  let combinationCounts := comboCountsOf (valuesAsc allData)
  let withScores := combinationCounts.map (fun e =>
    (e.1, e.2, e.1.foldl (fun sum num => sum + freqCount cur num) 0))
  let sortedCombinations := List.insertionSort
    (fun a b => b.2.1 < a.2.1 ∨ (a.2.1 = b.2.1 ∧ b.2.2 ≤ a.2.2)) withScores
  let totalGames := allData.length
  (sortedCombinations.take 10).map (fun e =>
    { numbers := e.1
      occurrences := e.2.1
      confidence := (e.2.1 : ℚ) / (totalGames : ℚ) * 100
      avgIndividualFrequency := (e.2.2 : ℚ) / 3 })

-- ===== theorems =====
lemma combLoop_zero (n : Int) : combLoop n 0 = 1 := rfl

lemma combLoop_succ (n : Int) (k : Nat) :
    combLoop n (k + 1) = combLoop n k * (((n - k : Int) : ℚ) / ((k : ℚ) + 1)) := by
  simp [combLoop, List.range_succ]

lemma combLoop_eq_choose (n k : Nat) (h : k ≤ n) :
    combLoop (n : Int) k = (n.choose k : ℚ) := by
  induction k with
  | zero => simp [combLoop_zero]
  | succ k ih =>
    have hk : k ≤ n := Nat.le_of_succ_le h
    rw [combLoop_succ, ih hk]
    have hrec : ((n.choose (k + 1) * (k + 1) : ℕ) : ℚ) = ((n.choose k * (n - k) : ℕ) : ℚ) := by
      exact_mod_cast congrArg (fun m : ℕ => (m : ℚ)) (Nat.choose_succ_right_eq n k)
    push_cast [Nat.cast_sub hk] at hrec
    have hne : ((k : ℚ) + 1) ≠ 0 := by positivity
    have hcast : (((n : Int) - (k : ℕ) : Int) : ℚ) = (n : ℚ) - (k : ℚ) := by push_cast; ring
    rw [hcast]
    field_simp
    linarith [hrec]

lemma combinations_eq_choose (n k : Nat) (h : k ≤ n) :
    combinations (n : Int) (k : Int) = (n.choose k : ℚ) := by
  unfold combinations
  rw [if_neg (by omega : ¬ ((k : Int) > (n : Int)))]
  by_cases h0 : (k : Int) = 0 ∨ (k : Int) = (n : Int)
  · rw [if_pos h0]
    rcases h0 with h0 | h0
    · have : k = 0 := by omega
      simp [this]
    · have : k = n := by omega
      simp [this]
  · rw [if_neg h0]
    have : (k : Int).toNat = k := Int.toNat_ofNat k
    rw [this]
    exact combLoop_eq_choose n k h

/-- C2 counterexample: the claim says `nChooseK(n, k)` returns 0 whenever
`k < 0`, but for `k = -1 ≤ n = 5` neither guard fires and the `for` loop
body never executes, so `combinations 5 (-1)` returns the initial value 1. -/
theorem combinations_neg_k_counterexample : combinations 5 (-1) ≠ 0 := by
  norm_num [combinations, combLoop, show ((-1 : Int)).toNat = 0 from rfl]

/-- C2 (amended): `combinations` returns 0 when `k > n`; returns 1 when the
first guard fails and `k = 0` or `k = n`; for negative `k ≤ n` it returns 1
(not 0 — the loop body never runs); and for `0 ≤ k ≤ n` the exact running
product equals the binomial coefficient `C(n, k)` (the code applies no final
rounding; in exact arithmetic none is needed). -/
theorem combinations_cases (n k : Int) :
    (k > n → combinations n k = 0) ∧
    (¬ k > n → (k = 0 ∨ k = n) → combinations n k = 1) ∧
    (k < 0 → k ≤ n → combinations n k = 1) ∧
    (0 ≤ k → k ≤ n → combinations n k = (n.toNat.choose k.toNat : ℚ)) := by
  refine ⟨fun h => by simp [combinations, h], fun h h0 => by simp [combinations, h, h0], ?_, ?_⟩
  · intro hneg hle
    unfold combinations
    rw [if_neg (by omega)]
    by_cases h0 : k = 0 ∨ k = n
    · rw [if_pos h0]
    · rw [if_neg h0]
      have : k.toNat = 0 := Int.toNat_of_nonpos (by omega)
      rw [this, combLoop_zero]
  · intro h0 hle
    have hn0 : 0 ≤ n := le_trans h0 hle
    have hk : k = (k.toNat : Int) := (Int.toNat_of_nonneg h0).symm
    have hn : n = (n.toNat : Int) := (Int.toNat_of_nonneg hn0).symm
    rw [hk, hn]
    exact combinations_eq_choose n.toNat k.toNat (by omega)

/-- C2 witness: the in-range branch of `combinations_cases` evaluated at
`n = 80`, `k = 3`. -/
theorem combinations_cases_witness :
    combinations 80 3 = (((80 : Int).toNat.choose (3 : Int).toNat : ℕ) : ℚ) :=
  (combinations_cases 80 3).2.2.2 (by decide) (by decide)

lemma choose_mul_choose_le_choose (m s : Nat) (h : m ≤ s) :
    Nat.choose 20 m * Nat.choose 60 (s - m) ≤ Nat.choose 80 s := by
  have h80 : (80 : ℕ) = 20 + 60 := by norm_num
  rw [h80, Nat.add_choose_eq]
  have hmem : ((m, s - m) : ℕ × ℕ) ∈ Finset.antidiagonal s :=
    Finset.mem_antidiagonal.mpr (by omega)
  exact Finset.single_le_sum (f := fun ij : ℕ × ℕ => Nat.choose 20 ij.1 * Nat.choose 60 ij.2)
    (fun i _ => Nat.zero_le _) hmem

/-- C3 counterexample: the claim says `probabilityOfHitting` returns a value
in `[0, 1]` for every pair of integers, but at `matchCount = -1`, `spotCount = 5`
none of the zero-guards fires, `combinations 20 (-1)` evaluates to 1 (empty
loop), and the result `C(60, 6) / C(80, 5) ≈ 2.08` exceeds 1. -/
theorem probabilityOfHitting_gt_one_counterexample :
    1 < probabilityOfHitting (-1) 5 := by
  have c20 : combinations 20 (-1) = 1 := by
    norm_num [combinations, combLoop, show ((-1 : Int)).toNat = 0 from rfl]
  have c60 : combinations 60 6 = 50063860 := by
    rw [combinations, if_neg (by norm_num), if_neg (by norm_num),
      show ((6 : Int)).toNat = 6 from rfl, combLoop,
      show List.range 6 = [0, 1, 2, 3, 4, 5] from rfl]
    norm_num
  have c80 : combinations 80 5 = 24040016 := by
    rw [combinations, if_neg (by norm_num), if_neg (by norm_num),
      show ((5 : Int)).toNat = 5 from rfl, combLoop,
      show List.range 5 = [0, 1, 2, 3, 4] from rfl]
    norm_num
  simp only [probabilityOfHitting, totalNumbers, numbersDrawn,
    show (5 : Int) - (-1) = 6 from rfl, show (80 : Int) - 20 = 60 from rfl, c20, c60, c80]
  norm_num

/-- C3 (amended): for every `matchCount ≥ 0` (and arbitrary integer `spotCount`)
`probabilityOfHitting` returns a value in `[0, 1]`; and for all integer
inputs it returns exactly 0 in each invalid case — `matches > spotCount`,
`matches > drawSize`, `spotCount > poolSize`, and
`spotCount - matches > poolSize - drawSize` (the last via a zero factor in
the numerator rather than an explicit guard).  For negative `matchCount` the
bound can fail, as the counterexample shows. -/
theorem probabilityOfHitting_props (matchCount spotCount : Int) :
    (0 ≤ matchCount → 0 ≤ probabilityOfHitting matchCount spotCount ∧
        probabilityOfHitting matchCount spotCount ≤ 1) ∧
    (matchCount > spotCount → probabilityOfHitting matchCount spotCount = 0) ∧
    (matchCount > numbersDrawn → probabilityOfHitting matchCount spotCount = 0) ∧
    (spotCount > totalNumbers → probabilityOfHitting matchCount spotCount = 0) ∧
    (spotCount - matchCount > totalNumbers - numbersDrawn →
        probabilityOfHitting matchCount spotCount = 0) := by
  have hTN : totalNumbers = 80 := rfl
  have hND : numbersDrawn = 20 := rfl
  refine ⟨?_, ?_, ?_, ?_, ?_⟩
  · intro hm
    simp only [probabilityOfHitting]
    rw [hTN, hND]
    split_ifs with h1 h2 h3 h4
    · norm_num
    · norm_num
    · norm_num
    · norm_num
    · -- main branch: ¬ denominator = 0, matchCount ≤ spotCount ≤ 80, matchCount ≤ 20
      by_cases h5 : spotCount - matchCount > 60
      · rw [show combinations (80 - 20) (spotCount - matchCount) = 0 by
          unfold combinations; rw [if_pos (by omega)]]
        norm_num
      · -- fully in-range case
        have hms : matchCount ≤ spotCount := by omega
        have hm20 : matchCount ≤ 20 := by omega
        have hs80 : spotCount ≤ 80 := by omega
        have hs0 : 0 ≤ spotCount := le_trans hm hms
        set M := matchCount.toNat with hM
        set S := spotCount.toNat with hS
        have hmM : matchCount = (M : Int) := (Int.toNat_of_nonneg hm).symm
        have hsS : spotCount = (S : Int) := (Int.toNat_of_nonneg hs0).symm
        have hsub : spotCount - matchCount = ((S - M : ℕ) : Int) := by
          rw [hmM, hsS]; omega
        have e1 : combinations 20 matchCount = (Nat.choose 20 M : ℚ) := by
          rw [hmM]; exact combinations_eq_choose 20 M (by omega)
        have e2 : combinations (80 - 20) (spotCount - matchCount) =
            (Nat.choose 60 (S - M) : ℚ) := by
          rw [hsub, show (80 - 20 : Int) = ((60 : ℕ) : Int) from rfl]
          exact combinations_eq_choose 60 (S - M) (by omega)
        have e3 : combinations 80 spotCount = (Nat.choose 80 S : ℚ) := by
          rw [hsS, show (80 : Int) = ((80 : ℕ) : Int) from rfl]
          exact combinations_eq_choose 80 S (by omega)
        rw [e1, e2, e3]
        have hdenpos : (0 : ℚ) < (Nat.choose 80 S : ℚ) := by
          exact_mod_cast Nat.choose_pos (by omega : S ≤ 80)
        constructor
        · positivity
        · rw [div_le_one hdenpos]
          exact_mod_cast choose_mul_choose_le_choose M S (by omega)
  · intro h
    simp only [probabilityOfHitting]
    rw [hTN, hND]
    split_ifs <;> rfl
  · intro h
    rw [hND] at h
    simp only [probabilityOfHitting]
    rw [hTN, hND]
    split_ifs <;> rfl
  · intro h
    rw [hTN] at h
    simp only [probabilityOfHitting]
    rw [hTN, hND]
    split_ifs <;> rfl
  · intro h
    rw [hTN, hND] at h
    simp only [probabilityOfHitting]
    rw [hTN, hND]
    rw [show combinations (80 - 20) (spotCount - matchCount) = 0 by
      unfold combinations; rw [if_pos (by omega)]]
    split_ifs <;> norm_num

/-- C3 witness: `probabilityOfHitting_props` applied at `matchCount = 2`,
`spotCount = 4`. -/
theorem probabilityOfHitting_props_witness :
    0 ≤ probabilityOfHitting 2 4 ∧ probabilityOfHitting 2 4 ≤ 1 :=
  (probabilityOfHitting_props 2 4).1 (by decide)

lemma filter_orderedInsert_pos {α : Type} (r : α → α → Prop) [DecidableRel r] (p : α → Bool)
    (a : α) (hpa : p a = true) (hp : ∀ y, ¬ r a y → p y = false) :
    ∀ l : List α, (l.orderedInsert r a).filter p = a :: l.filter p := by
  intro l
  induction l with
  | nil => simp [List.orderedInsert, hpa]
  | cons y ys ih =>
    by_cases hr : r a y
    · simp [List.orderedInsert, hr, hpa]
    · have hy : p y = false := hp y hr
      simp [List.orderedInsert, hr, hy, ih]

lemma filter_orderedInsert_neg {α : Type} (r : α → α → Prop) [DecidableRel r] (p : α → Bool)
    (a : α) (hpa : p a = false) :
    ∀ l : List α, (l.orderedInsert r a).filter p = l.filter p := by
  intro l
  induction l with
  | nil => simp [List.orderedInsert, hpa]
  | cons y ys ih =>
    by_cases hr : r a y
    · simp [List.orderedInsert, hr, hpa]
    · by_cases hy : p y = true
      · simp [List.orderedInsert, hr, hy, ih]
      · have hy' : p y = false := by simpa using hy
        simp [List.orderedInsert, hr, hy', ih]

/-- Stability of the insertion sort with respect to a filter that selects a
single "tie class": elements that compare no-worse than everything the
filter keeps are inserted after all kept elements, so the filtered
subsequence is unchanged by sorting. -/
lemma filter_insertionSort {α : Type} (r : α → α → Prop) [DecidableRel r] (p : α → Bool)
    (hcompat : ∀ a y, p a = true → ¬ r a y → p y = false) :
    ∀ l : List α, (List.insertionSort r l).filter p = l.filter p := by
  intro l
  induction l with
  | nil => rfl
  | cons x xs ih =>
    by_cases hx : p x = true
    · rw [List.insertionSort, filter_orderedInsert_pos r p x hx (fun y hr => hcompat x y hx hr), ih]
      simp [hx]
    · have hx' : p x = false := by simpa using hx
      rw [List.insertionSort, filter_orderedInsert_neg r p x hx', ih]
      simp [hx']

lemma sorted_byCountDesc (l : List (Nat × Nat)) :
    (List.insertionSort (fun a b : Nat × Nat => b.2 ≤ a.2) l).Sorted
      (fun a b => b.2 ≤ a.2) := by
  haveI : IsTotal (Nat × Nat) (fun a b => b.2 ≤ a.2) := ⟨fun a b => le_total b.2 a.2⟩
  haveI : IsTrans (Nat × Nat) (fun a b => b.2 ≤ a.2) := ⟨fun _ _ _ h1 h2 => le_trans h2 h1⟩
  exact List.sorted_insertionSort _ l

/-- C6 counterexample: the claim says ties between equal counts are broken
by ascending number, but on the history `{1: [4, 1]}` (number 4 scanned
before number 1, both once) the stable sort keeps the first-appearance
order `[(4, 1), (1, 1)]`, which violates the claimed descending-count /
ascending-number ordering. -/
theorem getNumberCounts_tie_counterexample :
    ¬ (getNumberCounts [(1, [4, 1])]).Pairwise
      (fun a b => b.2 < a.2 ∨ (a.2 = b.2 ∧ a.1 < b.1)) := by
  decide

/-- C6 (amended): `getNumberCounts` sorts descending by count, and ties
between equal counts keep the (deterministic) first-appearance order of the
underlying count map — the sort is stable — rather than being re-ordered by
ascending number.  The output is a permutation of the count map, and for
every count value `c` the subsequence of entries with that count is exactly
the first-appearance-ordered subsequence of the count map. -/
theorem getNumberCounts_sorted_stable (h : History) :
    (getNumberCounts h).Sorted (fun a b => b.2 ≤ a.2) ∧
    List.Perm (getNumberCounts h) (numberCountsMap h) ∧
    ∀ c : Nat, (getNumberCounts h).filter (fun e => e.2 = c) =
      (numberCountsMap h).filter (fun e => e.2 = c) := by
  refine ⟨sorted_byCountDesc _, List.perm_insertionSort _ _, fun c => ?_⟩
  apply filter_insertionSort
  intro a y ha hr
  simp only [decide_eq_true_eq] at ha
  simp only [decide_eq_false_iff_not]
  omega

/-- C1 counterexample: on two dates (the newer one inserted first, as a
"most recent first" source would be), the code flattens the OLDER date
first (reverse of insertion order) and each day's games in ASCENDING game
number order, so the result differs from the spec's date-descending /
game-number-descending ordering: id 1 receives the older day's game 37
rather than the newer day's game 38. -/
theorem processKenoData_order_counterexample :
    processKenoData [(20250102, [(37, [1, 2, 3]), (38, [4, 5, 6])]), (20250101, [(37, [7, 8, 9])])] ≠
      processKenoDataSpecOrder
        [(20250102, [(37, [1, 2, 3]), (38, [4, 5, 6])]), (20250101, [(37, [7, 8, 9])])] := by
  decide

/-- C1 (amended): `processKenoData` produces a history whose sequence ids
are exactly `1..N` in order (so they are distinct — identical per-day game
numbers recurring on different dates never collide), and whose draw payloads
are each date's original number arrays, unchanged, in the code's flattening
order: reverse insertion order of the date keys, then ascending per-day game
number — not date-descending / game-number-descending as claimed. -/
theorem processKenoData_reindex (raw : RawAllData) :
    (processKenoData raw).map Prod.fst =
      List.range' 1 (raw.reverse.flatMap (fun d => entriesAsc d.2)).length ∧
    (processKenoData raw).map Prod.snd =
      raw.reverse.flatMap (fun d => (entriesAsc d.2).map Prod.snd) ∧
    ((processKenoData raw).map Prod.fst).Nodup := by
  have hfst : (processKenoData raw).map Prod.fst =
      List.range' 1 (raw.reverse.flatMap (fun d => entriesAsc d.2)).length := by
    simp only [processKenoData, List.map_map]
    have h1 : (Prod.fst ∘ fun ig : Nat × (Nat × List Nat) => (ig.1 + 1, ig.2.2)) =
        (fun n => n + 1) ∘ Prod.fst := rfl
    rw [h1, ← List.map_map, List.enum_map_fst, List.range'_eq_map_range]
    exact List.map_congr_left fun x _ => Nat.add_comm x 1
  refine ⟨hfst, ?_, ?_⟩
  · simp only [processKenoData, List.map_map]
    have h1 : (Prod.snd ∘ fun ig : Nat × (Nat × List Nat) => (ig.1 + 1, ig.2.2)) =
        Prod.snd ∘ Prod.snd := rfl
    rw [h1, ← List.map_map, List.enum_map_snd, List.map_flatMap]
  · rw [hfst]
    exact List.nodup_range' _ _

/-- C9: `probabilityAcrossGames(m, s, 1)` equals `hypergeometric(m, s)`:
with `numGames = 1` the formula `1 - (1 - p) ^ 1` collapses to the
single-game probability (exact rational arithmetic). -/
theorem probabilityAcrossGames_one (matchCount spotCount : Int) :
    probabilityAcrossGames matchCount spotCount 1 = probabilityOfHitting matchCount spotCount := by
  simp [probabilityAcrossGames]

lemma getAssocD_setAssoc_self {κ α : Type} [DecidableEq κ] (m : List (κ × α)) (k : κ)
    (v : α) (d : α) : getAssocD (setAssoc m k v) k d = v := by
  induction m with
  | nil => simp [setAssoc, getAssocD]
  | cons e rest ih =>
    by_cases he : e.1 = k
    · simp [setAssoc, getAssocD, he]
    · simp [setAssoc, getAssocD, he, ih]

lemma getAssocD_setAssoc_ne {κ α : Type} [DecidableEq κ] (m : List (κ × α)) (k k' : κ)
    (v : α) (d : α) (hne : k' ≠ k) :
    getAssocD (setAssoc m k v) k' d = getAssocD m k' d := by
  induction m with
  | nil =>
    simp only [setAssoc, getAssocD]
    rw [if_neg (Ne.symm hne)]
  | cons e rest ih =>
    by_cases he : e.1 = k
    · subst he
      simp [setAssoc, getAssocD, Ne.symm hne]
    · by_cases h3 : e.1 = k'
      · simp [setAssoc, getAssocD, he, h3, hne]
      · simp [setAssoc, getAssocD, he, h3, ih]

lemma mem_fst_setAssoc {κ α : Type} [DecidableEq κ] (m : List (κ × α)) (k a : κ) (v : α) :
    a ∈ (setAssoc m k v).map Prod.fst ↔ a ∈ m.map Prod.fst ∨ a = k := by
  induction m with
  | nil => simp [setAssoc]
  | cons e rest ih =>
    by_cases he : e.1 = k
    · subst he
      simp [setAssoc]
      tauto
    · simp [setAssoc, he, ih]
      tauto

lemma nodup_fst_setAssoc {κ α : Type} [DecidableEq κ] (m : List (κ × α)) (k : κ) (v : α)
    (h : (m.map Prod.fst).Nodup) : ((setAssoc m k v).map Prod.fst).Nodup := by
  induction m with
  | nil => simp [setAssoc]
  | cons e rest ih =>
    simp only [List.map_cons, List.nodup_cons] at h
    by_cases he : e.1 = k
    · simp only [setAssoc, if_pos he, List.map_cons, List.nodup_cons]
      exact ⟨h.1, h.2⟩
    · simp only [setAssoc, if_neg he, List.map_cons, List.nodup_cons]
      refine ⟨?_, ih h.2⟩
      rw [mem_fst_setAssoc]
      push_neg
      exact ⟨h.1, he⟩

lemma mem_of_getAssocD {κ α : Type} [DecidableEq κ] (m : List (κ × α)) (k : κ) (d : α)
    (hk : k ∈ m.map Prod.fst) : (k, getAssocD m k d) ∈ m := by
  induction m with
  | nil => simp at hk
  | cons e rest ih =>
    by_cases he : e.1 = k
    · simp only [getAssocD, if_pos he, List.mem_cons]
      left
      rw [← he]
    · simp only [getAssocD, if_neg he, List.mem_cons]
      right
      apply ih
      simp only [List.map_cons, List.mem_cons] at hk
      rcases hk with hk | hk
      · exact absurd hk.symm he
      · exact hk

lemma mem_setAssoc_val {κ α : Type} [DecidableEq κ] (m : List (κ × α)) (k : κ) (v : α)
    (p : κ × α) (hp : p ∈ setAssoc m k v) : p ∈ m ∨ p.2 = v := by
  induction m with
  | nil =>
    simp [setAssoc] at hp
    right
    rw [hp]
  | cons e rest ih =>
    by_cases he : e.1 = k
    · simp only [setAssoc, if_pos he, List.mem_cons] at hp
      rcases hp with hp | hp
      · right; rw [hp]
      · left; exact List.mem_cons_of_mem _ hp
    · simp only [setAssoc, if_neg he, List.mem_cons] at hp
      rcases hp with hp | hp
      · left; exact hp ▸ List.mem_cons_self _ _
      · rcases ih hp with h | h
        · left; exact List.mem_cons_of_mem _ h
        · right; exact h

lemma getAssocD_of_mem_nodup {κ α : Type} [DecidableEq κ] (m : List (κ × α)) (p : κ × α)
    (d : α) (hnd : (m.map Prod.fst).Nodup) (hp : p ∈ m) : getAssocD m p.1 d = p.2 := by
  induction m with
  | nil => simp at hp
  | cons e rest ih =>
    simp only [List.map_cons, List.nodup_cons] at hnd
    rcases List.mem_cons.mp hp with hp | hp
    · subst hp
      simp [getAssocD]
    · have hne : ¬ e.1 = p.1 := by
        intro h
        exact hnd.1 (h ▸ List.mem_map_of_mem Prod.fst hp)
      simp only [getAssocD, if_neg hne]
      exact ih hnd.2 hp

lemma fst_map_val {κ α β : Type} (m : List (κ × α)) (f : κ × α → β) :
    (m.map (fun e => (e.1, f e))).map Prod.fst = m.map Prod.fst := by
  induction m with
  | nil => rfl
  | cons e rest ih => simp [ih]

lemma getAssocD_map_inc (m : List (Nat × Nat)) (k : Nat)
    (hk : k ∈ m.map Prod.fst) :
    getAssocD (m.map (fun e => (e.1, e.2 + 1))) k 0 = getAssocD m k 0 + 1 := by
  induction m with
  | nil => simp at hk
  | cons e rest ih =>
    by_cases he : e.1 = k
    · simp [getAssocD, he]
    · simp only [List.map_cons, List.mem_cons] at hk
      rcases hk with hk | hk
      · exact absurd hk.symm he
      · simp only [List.map_cons, getAssocD, if_neg he]
        exact ih hk

lemma getAssocD_not_mem {κ α : Type} [DecidableEq κ] (m : List (κ × α)) (k : κ) (d : α)
    (hk : k ∉ m.map Prod.fst) : getAssocD m k d = d := by
  induction m with
  | nil => rfl
  | cons e rest ih =>
    simp only [List.map_cons, List.mem_cons, not_or] at hk
    rw [show getAssocD (e :: rest) k d = if e.1 = k then e.2 else getAssocD rest k d from rfl,
      if_neg (fun h => hk.1 h.symm)]
    exact ih hk.2

lemma getAssocD_all_zero (m : List (Nat × Nat)) (k : Nat)
    (hz : ∀ p ∈ m, p.2 = 0) : getAssocD m k 0 = 0 := by
  induction m with
  | nil => rfl
  | cons e rest ih =>
    by_cases he : e.1 = k
    · simpa [getAssocD, he] using hz e (List.mem_cons_self _ _)
    · simp only [getAssocD, if_neg he]
      exact ih (fun p hp => hz p (List.mem_cons_of_mem _ hp))

lemma innerLoop_not_mem (nums : List Nat) (n : Nat) (hn : n ∉ nums) :
    ∀ st : List (Nat × List Nat) × List (Nat × Nat),
      getAssocD (nums.foldl gapUpd st).1 n [] = getAssocD st.1 n [] ∧
      getAssocD (nums.foldl gapUpd st).2 n 0 = getAssocD st.2 n 0 := by
  induction nums with
  | nil => exact fun st => ⟨rfl, rfl⟩
  | cons num rest ih =>
    intro st
    simp only [List.mem_cons, not_or] at hn
    obtain ⟨h1, h2⟩ := ih hn.2 (gapUpd st num)
    simp only [List.foldl_cons]
    rw [h1, h2]
    exact ⟨getAssocD_setAssoc_ne _ _ _ _ _ hn.1, getAssocD_setAssoc_ne _ _ _ _ _ hn.1⟩

lemma innerLoop_mem (nums : List Nat) (n : Nat) :
    ∀ st : List (Nat × List Nat) × List (Nat × Nat), nums.Nodup → n ∈ nums →
      getAssocD (nums.foldl gapUpd st).1 n [] =
        getAssocD st.1 n [] ++ [getAssocD st.2 n 0] ∧
      getAssocD (nums.foldl gapUpd st).2 n 0 = 0 := by
  induction nums with
  | nil => intro st _ h; simp at h
  | cons num rest ih =>
    intro st hnd hmem
    simp only [List.foldl_cons]
    rcases List.mem_cons.mp hmem with heq | hmemr
    · subst heq
      have hrest : n ∉ rest := (List.nodup_cons.mp hnd).1
      obtain ⟨h1, h2⟩ := innerLoop_not_mem rest n hrest (gapUpd st n)
      rw [h1, h2]
      exact ⟨getAssocD_setAssoc_self _ _ _ _, getAssocD_setAssoc_self _ _ _ _⟩
    · have hne : n ≠ num := by
        intro h
        subst h
        exact (List.nodup_cons.mp hnd).1 hmemr
      obtain ⟨h1, h2⟩ := ih (gapUpd st num) (List.nodup_cons.mp hnd).2 hmemr
      rw [h1, h2]
      rw [show (gapUpd st num).1 =
        setAssoc st.1 num (getAssocD st.1 num [] ++ [getAssocD st.2 num 0]) from rfl]
      rw [show (gapUpd st num).2 = setAssoc st.2 num 0 from rfl]
      rw [getAssocD_setAssoc_ne _ _ _ _ _ hne, getAssocD_setAssoc_ne _ _ _ _ _ hne]
      exact ⟨rfl, rfl⟩

lemma innerLoop_ga_keys (nums : List Nat) :
    ∀ (st : List (Nat × List Nat) × List (Nat × Nat)) (a : Nat),
      a ∈ (nums.foldl gapUpd st).1.map Prod.fst ↔ a ∈ st.1.map Prod.fst ∨ a ∈ nums := by
  induction nums with
  | nil => intro st a; simp
  | cons num rest ih =>
    intro st a
    simp only [List.foldl_cons]
    rw [ih (gapUpd st num) a]
    rw [show (gapUpd st num).1 =
      setAssoc st.1 num (getAssocD st.1 num [] ++ [getAssocD st.2 num 0]) from rfl]
    rw [mem_fst_setAssoc]
    simp only [List.mem_cons]
    tauto

lemma innerLoop_cg_keys (nums : List Nat) :
    ∀ (st : List (Nat × List Nat) × List (Nat × Nat)) (a : Nat),
      a ∈ st.2.map Prod.fst → a ∈ (nums.foldl gapUpd st).2.map Prod.fst := by
  induction nums with
  | nil => exact fun st a h => h
  | cons num rest ih =>
    intro st a h
    simp only [List.foldl_cons]
    apply ih (gapUpd st num)
    rw [show (gapUpd st num).2 = setAssoc st.2 num 0 from rfl, mem_fst_setAssoc]
    left
    exact h

lemma innerLoop_ga_nodup (nums : List Nat) :
    ∀ st : List (Nat × List Nat) × List (Nat × Nat),
      (st.1.map Prod.fst).Nodup → ((nums.foldl gapUpd st).1.map Prod.fst).Nodup := by
  induction nums with
  | nil => exact fun st h => h
  | cons num rest ih =>
    intro st h
    simp only [List.foldl_cons]
    exact ih (gapUpd st num) (nodup_fst_setAssoc _ _ _ h)

lemma innerLoop_ga_good (nums : List Nat) :
    ∀ st : List (Nat × List Nat) × List (Nat × Nat), nums.Nodup →
      (∀ num ∈ nums, 1 ≤ getAssocD st.2 num 0) →
      (∀ p ∈ st.1, p.2 ≠ [] ∧ ∀ g ∈ p.2, 1 ≤ g) →
      ∀ p ∈ (nums.foldl gapUpd st).1, p.2 ≠ [] ∧ ∀ g ∈ p.2, 1 ≤ g := by
  induction nums with
  | nil => exact fun st _ _ h => h
  | cons num rest ih =>
    intro st hnd hval hgood
    simp only [List.foldl_cons]
    apply ih (gapUpd st num) (List.nodup_cons.mp hnd).2
    · intro m hm
      have hne : m ≠ num := by
        intro h
        exact (List.nodup_cons.mp hnd).1 (h ▸ hm)
      rw [show (gapUpd st num).2 = setAssoc st.2 num 0 from rfl,
        getAssocD_setAssoc_ne _ _ _ _ _ hne]
      exact hval m (List.mem_cons_of_mem _ hm)
    · intro p hp
      rw [show (gapUpd st num).1 =
        setAssoc st.1 num (getAssocD st.1 num [] ++ [getAssocD st.2 num 0]) from rfl] at hp
      rcases mem_setAssoc_val _ _ _ _ hp with h | h
      · exact hgood p h
      · have hgap : 1 ≤ getAssocD st.2 num 0 := hval num (List.mem_cons_self _ _)
        have hold : ∀ g ∈ getAssocD st.1 num [], 1 ≤ g := by
          by_cases hmem : num ∈ st.1.map Prod.fst
          · exact (hgood _ (mem_of_getAssocD st.1 num [] hmem)).2
          · rw [getAssocD_not_mem _ _ _ hmem]
            simp
        rw [h]
        refine ⟨by simp, fun g hg => ?_⟩
        rcases List.mem_append.mp hg with hg | hg
        · exact hold g hg
        · simp only [List.mem_singleton] at hg
          rw [hg]
          exact hgap

lemma gapStep_eq (st : List (Nat × List Nat) × List (Nat × Nat)) (d : Nat × List Nat) :
    gapStep st d = d.2.foldl gapUpd (st.1, st.2.map (fun e => (e.1, e.2 + 1))) := rfl

lemma gapFold_keys (draws : List (Nat × List Nat)) :
    ∀ (st : List (Nat × List Nat) × List (Nat × Nat)) (a : Nat),
      a ∈ (draws.foldl gapStep st).1.map Prod.fst ↔
        a ∈ st.1.map Prod.fst ∨ ∃ d ∈ draws, a ∈ d.2 := by
  induction draws with
  | nil => intro st a; simp
  | cons d rest ih =>
    intro st a
    simp only [List.foldl_cons]
    rw [ih (gapStep st d) a]
    rw [show (gapStep st d).1 =
      (d.2.foldl gapUpd (st.1, st.2.map (fun e => (e.1, e.2 + 1)))).1 from rfl]
    rw [innerLoop_ga_keys d.2 (st.1, st.2.map (fun e => (e.1, e.2 + 1))) a]
    rw [List.exists_mem_cons_iff]
    tauto

lemma gapFold_good (draws : List (Nat × List Nat)) :
    ∀ st : List (Nat × List Nat) × List (Nat × Nat),
      (∀ d ∈ draws, (∀ num ∈ d.2, 1 ≤ num ∧ num ≤ 80) ∧ d.2.Nodup) →
      (∀ n, 1 ≤ n → n ≤ 80 → n ∈ st.2.map Prod.fst) →
      (∀ p ∈ st.1, p.2 ≠ [] ∧ ∀ g ∈ p.2, 1 ≤ g) →
      (st.1.map Prod.fst).Nodup →
      (∀ p ∈ (draws.foldl gapStep st).1, p.2 ≠ [] ∧ ∀ g ∈ p.2, 1 ≤ g) ∧
      ((draws.foldl gapStep st).1.map Prod.fst).Nodup := by
  induction draws with
  | nil => exact fun st _ _ hgood hnd => ⟨hgood, hnd⟩
  | cons d rest ih =>
    intro st hdr hpool hgood hnd
    simp only [List.foldl_cons]
    have hd := hdr d (List.mem_cons_self _ _)
    have hval : ∀ num ∈ d.2, 1 ≤ getAssocD (st.2.map (fun e => (e.1, e.2 + 1))) num 0 := by
      intro num hnum
      have hkey : num ∈ st.2.map Prod.fst :=
        hpool num (hd.1 num hnum).1 (hd.1 num hnum).2
      rw [getAssocD_map_inc _ _ hkey]
      omega
    have step_good : ∀ p ∈ (gapStep st d).1, p.2 ≠ [] ∧ ∀ g ∈ p.2, 1 ≤ g := by
      rw [gapStep_eq]
      exact innerLoop_ga_good d.2 (st.1, st.2.map (fun e => (e.1, e.2 + 1))) hd.2 hval hgood
    have step_nodup : ((gapStep st d).1.map Prod.fst).Nodup := by
      rw [gapStep_eq]
      exact innerLoop_ga_nodup d.2 (st.1, st.2.map (fun e => (e.1, e.2 + 1))) hnd
    have step_pool : ∀ n, 1 ≤ n → n ≤ 80 → n ∈ (gapStep st d).2.map Prod.fst := by
      intro n h1 h2
      rw [gapStep_eq]
      apply innerLoop_cg_keys d.2 (st.1, st.2.map (fun e => (e.1, e.2 + 1)))
      rw [show (st.1, st.2.map (fun e : Nat × Nat => (e.1, e.2 + 1))).2 =
        st.2.map (fun e => (e.1, e.2 + 1)) from rfl, fst_map_val]
      exact hpool n h1 h2
    exact ih (gapStep st d) (fun d' hd' => hdr d' (List.mem_cons_of_mem _ hd'))
      step_pool step_good step_nodup

lemma gapFold_track (draws : List (Nat × List Nat)) (n : Nat) :
    ∀ st : List (Nat × List Nat) × List (Nat × Nat),
      (∀ d ∈ draws, n ∈ d.2 ∧ d.2.Nodup) →
      n ∈ st.2.map Prod.fst →
      getAssocD st.2 n 0 = 0 →
      getAssocD (draws.foldl gapStep st).1 n [] =
        getAssocD st.1 n [] ++ List.replicate draws.length 1 ∧
      getAssocD (draws.foldl gapStep st).2 n 0 = 0 := by
  induction draws with
  | nil =>
    intro st _ _ h0
    exact ⟨by simp, h0⟩
  | cons d rest ih =>
    intro st hdr hkey h0
    simp only [List.foldl_cons]
    have hd := hdr d (List.mem_cons_self _ _)
    have hinc : getAssocD (st.2.map (fun e => (e.1, e.2 + 1))) n 0 = 1 := by
      rw [getAssocD_map_inc _ _ hkey, h0]
    obtain ⟨h1, h2⟩ :=
      innerLoop_mem d.2 n (st.1, st.2.map (fun e => (e.1, e.2 + 1))) hd.2 hd.1
    have hkey' : n ∈ (gapStep st d).2.map Prod.fst := by
      apply innerLoop_cg_keys d.2 (st.1, st.2.map (fun e : Nat × Nat => (e.1, e.2 + 1)))
      rw [show (st.1, st.2.map (fun e : Nat × Nat => (e.1, e.2 + 1))).2 =
        st.2.map (fun e => (e.1, e.2 + 1)) from rfl, fst_map_val]
      exact hkey
    obtain ⟨r1, r2⟩ := ih (gapStep st d)
      (fun d' hd' => hdr d' (List.mem_cons_of_mem _ hd')) hkey' h2
    refine ⟨?_, r2⟩
    rw [r1]
    rw [show (gapStep st d).1 =
      (d.2.foldl gapUpd (st.1, st.2.map (fun e => (e.1, e.2 + 1)))).1 from rfl, h1, hinc]
    simp [List.replicate_succ, List.append_assoc]

lemma mem_entriesDesc (h : History) (d : Nat × List Nat) : d ∈ entriesDesc h ↔ d ∈ h := by
  unfold entriesDesc entriesAsc
  rw [List.mem_insertionSort, List.mem_insertionSort]

lemma mem_fst_initGaps (n : Nat) (h1 : 1 ≤ n) (h80 : n ≤ 80) :
    n ∈ initGaps.map Prod.fst := by
  rw [initGaps, List.map_map, List.mem_map]
  refine ⟨n - 1, List.mem_range.mpr (by omega), ?_⟩
  show n - 1 + 1 = n
  omega

lemma getAssocD_initGaps (n : Nat) : getAssocD initGaps n 0 = 0 := by
  apply getAssocD_all_zero
  intro p hp
  simp only [initGaps, List.mem_map] at hp
  obtain ⟨i, _, hip⟩ := hp
  rw [← hip]

/-- C4 (amended): the gap analyzer's output covers exactly the numbers that
appear at least once in the history — a number never observed is simply
absent from the output (the `gapAnalysis` map is only populated on
appearance), not zero-filled over the 80-number pool; and for every record
produced, `averageGap ≥ 1` (every recorded gap is at least 1), so
`gapRatio = currentGap / averageGap` is a well-defined finite value and no
NaN/Infinity can arise.  Hypotheses: the draws' numbers lie in the pool
1..80 (out-of-pool numbers would read an uninitialised `currentGaps` key in
the JavaScript) and are distinct within a draw (the Draw invariant of the
data model). -/
theorem analyzeNumberGaps_coverage (h : History)
    (hrange : ∀ d ∈ h, ∀ num ∈ d.2, 1 ≤ num ∧ num ≤ 80)
    (hnodup : ∀ d ∈ h, d.2.Nodup) :
    (∀ n : Nat, (∃ r ∈ analyzeNumberGaps h, r.number = n) ↔ ∃ d ∈ h, n ∈ d.2) ∧
    ∀ r ∈ analyzeNumberGaps h, 1 ≤ r.averageGap := by
  have hdr : ∀ d ∈ entriesDesc h, (∀ num ∈ d.2, 1 ≤ num ∧ num ≤ 80) ∧ d.2.Nodup := by
    intro d hd
    have hdh := (mem_entriesDesc h d).mp hd
    exact ⟨hrange d hdh, hnodup d hdh⟩
  obtain ⟨hgood, _⟩ := gapFold_good (entriesDesc h) ([], initGaps) hdr
    (fun n hn1 hn80 => mem_fst_initGaps n hn1 hn80)
    (by intro p hp; simp at hp) (by simp)
  have hkeys := gapFold_keys (entriesDesc h) ([], initGaps)
  constructor
  · intro n
    constructor
    · rintro ⟨r, hr, rfl⟩
      simp only [analyzeNumberGaps, List.mem_insertionSort, List.mem_map] at hr
      obtain ⟨e, he, hre⟩ := hr
      subst hre
      have hkey : e.1 ∈ (gapScan h).1.map Prod.fst := List.mem_map_of_mem Prod.fst he
      rw [show (gapScan h).1 = ((entriesDesc h).foldl gapStep ([], initGaps)).1 from rfl,
        hkeys e.1] at hkey
      rcases hkey with hkey | ⟨d, hd, hnd⟩
      · simp at hkey
      · exact ⟨d, (mem_entriesDesc h d).mp hd, hnd⟩
    · rintro ⟨d, hd, hn⟩
      have hkeyn : n ∈ (gapScan h).1.map Prod.fst := by
        rw [show (gapScan h).1 = ((entriesDesc h).foldl gapStep ([], initGaps)).1 from rfl,
          hkeys n]
        right
        exact ⟨d, (mem_entriesDesc h d).mpr hd, hn⟩
      have hpmem := mem_of_getAssocD (gapScan h).1 n [] hkeyn
      refine ⟨{ number := n,
                currentGap := getAssocD (gapScan h).2 n 0,
                averageGap := ((getAssocD (gapScan h).1 n []).sum : ℚ) /
                  ((getAssocD (gapScan h).1 n []).length : ℚ),
                gapRatio := ((getAssocD (gapScan h).2 n 0 : ℕ) : ℚ) /
                  (((getAssocD (gapScan h).1 n []).sum : ℚ) /
                    ((getAssocD (gapScan h).1 n []).length : ℚ)) }, ?_, rfl⟩
      simp only [analyzeNumberGaps, List.mem_insertionSort]
      exact List.mem_map_of_mem _ hpmem
  · intro r hr
    simp only [analyzeNumberGaps, List.mem_insertionSort, List.mem_map] at hr
    obtain ⟨e, he, hre⟩ := hr
    obtain ⟨hne, hge⟩ := hgood e he
    subst hre
    show (1 : ℚ) ≤ (e.2.sum : ℚ) / (e.2.length : ℚ)
    have hlen : 0 < e.2.length := List.length_pos.mpr hne
    have hsum : e.2.length ≤ e.2.sum := List.length_le_sum_of_one_le _ hge
    rw [le_div_iff₀ (by exact_mod_cast hlen), one_mul]
    exact_mod_cast hsum

/-- C4 witness: `analyzeNumberGaps_coverage` applied to the one-draw
history `{1: [5]}`. -/
theorem analyzeNumberGaps_coverage_witness :
    (∀ n : Nat, (∃ r ∈ analyzeNumberGaps [(1, [5])], r.number = n) ↔
      ∃ d ∈ ([(1, [5])] : History), n ∈ d.2) ∧
    ∀ r ∈ analyzeNumberGaps [(1, [5])], 1 ≤ r.averageGap :=
  analyzeNumberGaps_coverage [(1, [5])] (by decide) (by decide)

/-- C4 counterexample: the claim says the output covers all 80 pool
numbers, but on the history `{1: [5]}` the never-observed number 7 has no
record at all. -/
theorem analyzeNumberGaps_missing_number_counterexample :
    ¬ ∃ r ∈ analyzeNumberGaps [(1, [5])], r.number = 7 := by
  decide

lemma analyzeNumberGaps_everyDraw_aux (h : History) (n : Nat)
    (hne : h ≠ []) (hall : ∀ d ∈ h, n ∈ d.2) (hnodup : ∀ d ∈ h, d.2.Nodup)
    (h1 : 1 ≤ n) (h80 : n ≤ 80) :
    ∃ r ∈ analyzeNumberGaps h, r.number = n ∧ r.currentGap = 0 ∧ r.averageGap = 1 := by
  obtain ⟨t1, t2⟩ := gapFold_track (entriesDesc h) n ([], initGaps)
    (fun d hd => ⟨hall d ((mem_entriesDesc h d).mp hd), hnodup d ((mem_entriesDesc h d).mp hd)⟩)
    (mem_fst_initGaps n h1 h80) (getAssocD_initGaps n)
  have hlen : 0 < (entriesDesc h).length := by
    rw [entriesDesc, List.length_insertionSort, entriesAsc, List.length_insertionSort]
    exact List.length_pos.mpr hne
  have hkeyn : n ∈ (gapScan h).1.map Prod.fst := by
    rw [show (gapScan h).1 = ((entriesDesc h).foldl gapStep ([], initGaps)).1 from rfl,
      gapFold_keys (entriesDesc h) ([], initGaps) n]
    right
    obtain ⟨d, hd⟩ := List.exists_mem_of_ne_nil h hne
    exact ⟨d, (mem_entriesDesc h d).mpr hd, hall d hd⟩
  have hval : getAssocD (gapScan h).1 n [] = List.replicate (entriesDesc h).length 1 := by
    rw [show (gapScan h).1 = ((entriesDesc h).foldl gapStep ([], initGaps)).1 from rfl, t1]
    rfl
  have hcur : getAssocD (gapScan h).2 n 0 = 0 := t2
  have hpmem := mem_of_getAssocD (gapScan h).1 n [] hkeyn
  refine ⟨{ number := n,
            currentGap := getAssocD (gapScan h).2 n 0,
            averageGap := ((getAssocD (gapScan h).1 n []).sum : ℚ) /
              ((getAssocD (gapScan h).1 n []).length : ℚ),
            gapRatio := ((getAssocD (gapScan h).2 n 0 : ℕ) : ℚ) /
              (((getAssocD (gapScan h).1 n []).sum : ℚ) /
                ((getAssocD (gapScan h).1 n []).length : ℚ)) }, ?_, rfl, hcur, ?_⟩
  · simp only [analyzeNumberGaps, List.mem_insertionSort]
    exact List.mem_map_of_mem _ hpmem
  · show ((getAssocD (gapScan h).1 n []).sum : ℚ) / ((getAssocD (gapScan h).1 n []).length : ℚ) = 1
    rw [hval]
    simp only [List.sum_replicate, List.length_replicate, smul_eq_mul, mul_one]
    rw [div_self]
    exact Nat.cast_ne_zero.mpr (by omega)

/-- C5 (corrected from "averageGap equals 0"): for a number `n` in the pool
that appears in every draw of a non-empty history (with distinct numbers
per draw), the gap analyzer's record for `n` has `currentGap = 0` — it is
reset at the last scanned draw — and `averageGap = 1`, not 0: every
appearance records the gap value 1 (the counter is incremented before being
read and reset), so the mean of the recorded gaps is 1. -/
theorem analyzeNumberGaps_everyDraw (h : History) (n : Nat)
    (hne : h ≠ []) (hall : ∀ d ∈ h, n ∈ d.2) (hnodup : ∀ d ∈ h, d.2.Nodup)
    (h1 : 1 ≤ n) (h80 : n ≤ 80) :
    ∃ r ∈ analyzeNumberGaps h, r.number = n ∧ r.currentGap = 0 ∧ r.averageGap = 1 :=
  analyzeNumberGaps_everyDraw_aux h n hne hall hnodup h1 h80

/-- C5 witness: `analyzeNumberGaps_everyDraw` applied to the history
`{1: [5], 2: [5]}` and the number 5. -/
theorem analyzeNumberGaps_everyDraw_witness :
    ∃ r ∈ analyzeNumberGaps [(1, [5]), (2, [5])],
      r.number = 5 ∧ r.currentGap = 0 ∧ r.averageGap = 1 :=
  analyzeNumberGaps_everyDraw [(1, [5]), (2, [5])] 5 (by decide) (by decide) (by decide)
    (by decide) (by decide)

/-- C5 counterexample: on the history `{1: [5], 2: [5]}` the record for the
number 5 (which appears in every draw) has `averageGap = 1 ≠ 0`, refuting
the claimed `averageGap == 0`. -/
theorem analyzeNumberGaps_averageGap_ne_zero_counterexample :
    ∃ r ∈ analyzeNumberGaps [(1, [5]), (2, [5])], r.number = 5 ∧ r.averageGap ≠ 0 := by
  obtain ⟨r, hr, hn, _, havg⟩ :=
    analyzeNumberGaps_everyDraw_aux [(1, [5]), (2, [5])] 5 (by decide) (by decide) (by decide)
      (by decide) (by decide)
  exact ⟨r, hr, hn, by rw [havg]; norm_num⟩

/-- C7 (amended): when ALL three contributing metric sets are empty
(equivalently, when the history contains no drawn numbers at all), the
aggregator returns an empty prediction list.  An individual empty set does
not short-circuit the aggregator as the spec claims: it merely contributes
nothing (its normalization maps over an empty list, so the `-Infinity`
maximum of an empty `Math.max` is never consumed and no division over the
empty set occurs), and the other sets still produce predictions. -/
theorem generatePredictions_empty (h : History)
    (ht : analyzeRecentTrends h 10 = [])
    (hg : analyzeNumberGaps h = [])
    (hc : analyzeHotColdPatterns h 2 = []) :
    generatePredictions h = [] := by
  simp [generatePredictions, ht, hg, hc, normalizeScores, addWeighted]

/-- C7 witness: `generatePredictions_empty` on the empty history. -/
theorem generatePredictions_empty_witness : generatePredictions [] = [] :=
  generatePredictions_empty [] (by decide) (by decide) (by decide)

/-- C7 counterexample: the claim says that if at least ONE of the three
metric sets is empty the aggregator returns an empty prediction list; on a
history whose ten most recent draws are all empty but whose oldest draw
contains the number 5, the recent-trend set is empty while the gap and
hot/cold sets still score number 5, and the aggregator returns a non-empty
prediction list. -/
theorem generatePredictions_not_shortCircuit_counterexample :
    analyzeRecentTrends [(1, [5]), (2, []), (3, []), (4, []), (5, []), (6, []), (7, []),
      (8, []), (9, []), (10, []), (11, [])] 10 = [] ∧
    generatePredictions [(1, [5]), (2, []), (3, []), (4, []), (5, []), (6, []), (7, []),
      (8, []), (9, []), (10, []), (11, [])] ≠ [] := by
  exact ⟨by decide, by decide⟩

lemma le_foldl_max (l : List ℚ) : ∀ b : ℚ, b ≤ l.foldl max b ∧ ∀ x ∈ l, x ≤ l.foldl max b := by
  induction l with
  | nil => intro b; exact ⟨le_refl _, by simp⟩
  | cons y ys ih =>
    intro b
    refine ⟨le_trans (le_max_left b y) (ih (max b y)).1, fun x hx => ?_⟩
    rcases List.mem_cons.mp hx with rfl | hx
    · exact le_trans (le_max_right b x) (ih (max b x)).1
    · exact (ih (max b y)).2 x hx

lemma le_maxQ (l : List ℚ) : ∀ x ∈ l, x ≤ maxQ l := by
  intro x hx
  cases l with
  | nil => simp at hx
  | cons y ys =>
    rcases List.mem_cons.mp hx with rfl | hx
    · exact (le_foldl_max ys x).1
    · exact (le_foldl_max ys y).2 x hx

lemma maxQ_pos_of_mem (l : List ℚ) (x : ℚ) (hx : x ∈ l) (hpos : 0 < x) : 0 < maxQ l :=
  lt_of_lt_of_le hpos (le_maxQ l x hx)

lemma normalizeScores_fst {α : Type} (number : α → Nat) (scoreKey : α → ℚ) (l : List α) :
    (normalizeScores number scoreKey l).map Prod.fst = l.map number := by
  simp only [normalizeScores, List.map_map]
  rfl

lemma normalizeScores_val_mem {α : Type} (number : α → Nat) (scoreKey : α → ℚ) (l : List α)
    (e : Nat × ℚ) (he : e ∈ normalizeScores number scoreKey l) :
    ∃ x ∈ l, e = (number x, scoreKey x / maxQ (l.map scoreKey)) := by
  simp only [normalizeScores, List.mem_map] at he
  obtain ⟨x, hx, hxe⟩ := he
  exact ⟨x, hx, hxe.symm⟩

lemma normalizeScores_bounds {α : Type} (number : α → Nat) (scoreKey : α → ℚ) (l : List α)
    (hnn : ∀ x ∈ l, 0 ≤ scoreKey x) (hm : 0 < maxQ (l.map scoreKey)) :
    ∀ e ∈ normalizeScores number scoreKey l, 0 ≤ e.2 ∧ e.2 ≤ 1 := by
  intro e he
  obtain ⟨x, hx, rfl⟩ := normalizeScores_val_mem number scoreKey l e he
  constructor
  · exact div_nonneg (hnn x hx) (le_of_lt hm)
  · rw [div_le_one hm]
    exact le_maxQ _ _ (List.mem_map_of_mem scoreKey hx)

lemma getAssocD_addWeighted (data : List (Nat × ℚ)) :
    ∀ (acc : List (Nat × ℚ)) (n : Nat) (w : ℚ),
      getAssocD (addWeighted acc data w) n 0 =
        getAssocD acc n 0 + w * ((data.filter (fun e => e.1 = n)).map Prod.snd).sum := by
  induction data with
  | nil => intro acc n w; simp [addWeighted]
  | cons e rest ih =>
    intro acc n w
    rw [show addWeighted acc (e :: rest) w =
      addWeighted (setAssoc acc e.1 (getAssocD acc e.1 0 + e.2 * w)) rest w from rfl]
    rw [ih]
    by_cases hen : e.1 = n
    · subst hen
      rw [getAssocD_setAssoc_self]
      have hf : (e :: rest).filter (fun x => x.1 = e.1) =
          e :: rest.filter (fun x => x.1 = e.1) := by
        simp [List.filter_cons]
      rw [hf]
      simp only [List.map_cons, List.sum_cons]
      ring
    · have hne : n ≠ e.1 := fun hh => hen hh.symm
      rw [getAssocD_setAssoc_ne _ _ _ _ _ hne]
      have hf : (e :: rest).filter (fun x => x.1 = n) = rest.filter (fun x => x.1 = n) := by
        simp [List.filter_cons, hen]
      rw [hf]

lemma nodup_fst_addWeighted (data : List (Nat × ℚ)) :
    ∀ (acc : List (Nat × ℚ)) (w : ℚ), (acc.map Prod.fst).Nodup →
      ((addWeighted acc data w).map Prod.fst).Nodup := by
  induction data with
  | nil => exact fun acc w h => h
  | cons e rest ih =>
    intro acc w h
    rw [show addWeighted acc (e :: rest) w =
      addWeighted (setAssoc acc e.1 (getAssocD acc e.1 0 + e.2 * w)) rest w from rfl]
    exact ih _ w (nodup_fst_setAssoc _ _ _ h)

lemma filter_key_sum_bound (data : List (Nat × ℚ)) (n : Nat)
    (hnd : (data.map Prod.fst).Nodup) (hb : ∀ e ∈ data, 0 ≤ e.2 ∧ e.2 ≤ 1) :
    0 ≤ ((data.filter (fun e => e.1 = n)).map Prod.snd).sum ∧
      ((data.filter (fun e => e.1 = n)).map Prod.snd).sum ≤ 1 := by
  induction data with
  | nil => simp
  | cons e rest ih =>
    simp only [List.map_cons, List.nodup_cons] at hnd
    by_cases hen : e.1 = n
    · have hrest : rest.filter (fun x => x.1 = n) = [] := by
        rw [List.filter_eq_nil_iff]
        intro x hx
        simp only [decide_eq_true_eq]
        intro hxn
        exact hnd.1 (by rw [hen, ← hxn]; exact List.mem_map_of_mem Prod.fst hx)
      simp only [List.filter_cons, hen, if_pos, decide_eq_true_eq, hrest]
      simp only [decide_True, ite_true, List.map_cons, List.map_nil, List.sum_cons,
        List.sum_nil, add_zero]
      exact hb e (List.mem_cons_self _ _)
    · simp only [List.filter_cons, decide_eq_true_eq, hen, ite_false, if_neg]
      have := ih hnd.2 (fun x hx => hb x (List.mem_cons_of_mem _ hx))
      simpa [hen] using this

lemma nodup_fst_numFold {α : Type} (l : List Nat) (f : List (Nat × α) → Nat → α) :
    ∀ m : List (Nat × α), (m.map Prod.fst).Nodup →
      ((l.foldl (fun m num => setAssoc m num (f m num)) m).map Prod.fst).Nodup := by
  induction l with
  | nil => exact fun m h => h
  | cons x xs ih =>
    intro m h
    exact ih _ (nodup_fst_setAssoc _ _ _ h)

lemma gapFold_nodup (draws : List (Nat × List Nat)) :
    ∀ st : List (Nat × List Nat) × List (Nat × Nat), (st.1.map Prod.fst).Nodup →
      ((draws.foldl gapStep st).1.map Prod.fst).Nodup := by
  induction draws with
  | nil => exact fun st h => h
  | cons d rest ih =>
    intro st h
    simp only [List.foldl_cons]
    apply ih (gapStep st d)
    rw [gapStep_eq]
    exact innerLoop_ga_nodup d.2 _ h

lemma analyzeRecentTrends_numbers_nodup (h : History) (w : Nat) :
    ((analyzeRecentTrends h w).map TrendRec.number).Nodup := by
  simp only [analyzeRecentTrends]
  have hperm := (List.perm_insertionSort
    (fun a b : TrendRec => b.momentum ≤ a.momentum)
    (((((entriesDesc h).take w).flatMap Prod.snd).foldl
        (fun m num => setAssoc m num (getAssocD m num 0 + 1)) []).map
      (fun e => ⟨e.1, e.2, (e.2 : ℚ) / (w : ℚ)⟩))).map TrendRec.number
  apply hperm.symm.nodup
  have heq : ((((((entriesDesc h).take w).flatMap Prod.snd).foldl
      (fun m num => setAssoc m num (getAssocD m num 0 + 1)) []).map
        (fun e => (⟨e.1, e.2, (e.2 : ℚ) / (w : ℚ)⟩ : TrendRec))).map TrendRec.number) =
      ((((entriesDesc h).take w).flatMap Prod.snd).foldl
        (fun m num => setAssoc m num (getAssocD m num 0 + 1)) []).map Prod.fst := by
    rw [List.map_map]
    rfl
  rw [heq]
  exact nodup_fst_numFold _ (fun m num => getAssocD m num 0 + 1) [] (by simp)

lemma analyzeNumberGaps_numbers_nodup (h : History) :
    ((analyzeNumberGaps h).map GapRec.number).Nodup := by
  simp only [analyzeNumberGaps]
  have hperm := (List.perm_insertionSort
    (fun a b : GapRec => b.gapRatio ≤ a.gapRatio)
    ((gapScan h).1.map (fun e =>
      (⟨e.1, getAssocD (gapScan h).2 e.1 0, (e.2.sum : ℚ) / (e.2.length : ℚ),
        ((getAssocD (gapScan h).2 e.1 0 : ℕ) : ℚ) /
          ((e.2.sum : ℚ) / (e.2.length : ℚ))⟩ : GapRec)))).map GapRec.number
  apply hperm.symm.nodup
  have heq : (((gapScan h).1.map (fun e =>
      (⟨e.1, getAssocD (gapScan h).2 e.1 0, (e.2.sum : ℚ) / (e.2.length : ℚ),
        ((getAssocD (gapScan h).2 e.1 0 : ℕ) : ℚ) /
          ((e.2.sum : ℚ) / (e.2.length : ℚ))⟩ : GapRec))).map GapRec.number) =
      (gapScan h).1.map Prod.fst := by
    rw [List.map_map]
    rfl
  rw [heq]
  exact gapFold_nodup (entriesDesc h) ([], initGaps) (by simp)

lemma weightFold_nodup (draws : List (Nat × List Nat)) (w : ℚ) :
    ∀ m : List (Nat × ℚ), (m.map Prod.fst).Nodup →
      ((draws.foldl (fun m draw => draw.2.foldl
        (fun m num => setAssoc m num (getAssocD m num 0 + w)) m) m).map Prod.fst).Nodup := by
  induction draws with
  | nil => exact fun m h => h
  | cons d rest ih =>
    intro m h
    simp only [List.foldl_cons]
    exact ih _ (nodup_fst_numFold d.2 (fun m num => getAssocD m num 0 + w) m h)

lemma analyzeHotColdPatterns_numbers_nodup (h : History) (w : ℚ) :
    ((analyzeHotColdPatterns h w).map HotColdRec.number).Nodup := by
  simp only [analyzeHotColdPatterns]
  have hperm := (List.perm_insertionSort
    (fun a b : HotColdRec => b.weightedScore ≤ a.weightedScore)
    ((((entriesDesc h).drop 20).foldl
        (fun m draw => draw.2.foldl (fun m num => setAssoc m num (getAssocD m num 0 + 1)) m)
        (((entriesDesc h).take 20).foldl
          (fun m draw => draw.2.foldl (fun m num => setAssoc m num (getAssocD m num 0 + w)) m)
          ([] : List (Nat × ℚ)))).map
      (fun e => (⟨e.1, e.2,
        ((((entriesDesc h).take 20).filter (fun d => e.1 ∈ d.2)).length : ℚ) / 20⟩ :
          HotColdRec)))).map HotColdRec.number
  apply hperm.symm.nodup
  rw [List.map_map]
  have heq : (HotColdRec.number ∘ fun e : Nat × ℚ => (⟨e.1, e.2,
      ((((entriesDesc h).take 20).filter (fun d => e.1 ∈ d.2)).length : ℚ) / 20⟩ :
        HotColdRec)) = Prod.fst := rfl
  rw [heq]
  apply weightFold_nodup
  exact weightFold_nodup _ _ _ (by simp)

/-- C10: when all three contributing metric sets are non-empty, every
metric value is non-negative and each set's maximum is positive, every
entry returned by the aggregator has a combined score in `[0, 1]`: each
per-metric normalized score lies in `[0, 1]`, a number missing from a set
contributes 0 for that term, and the weights `0.4 + 0.3 + 0.3` sum to 1 —
so the derived confidence percentage (`score * 100`) never exceeds 100. -/
theorem generatePredictions_score_in_unit (h : History)
    (htne : analyzeRecentTrends h 10 ≠ [])
    (hgne : analyzeNumberGaps h ≠ [])
    (hcne : analyzeHotColdPatterns h 2 ≠ [])
    (htnn : ∀ t ∈ analyzeRecentTrends h 10, 0 ≤ t.momentum)
    (hgnn : ∀ g ∈ analyzeNumberGaps h, 0 ≤ g.gapRatio)
    (hcnn : ∀ c ∈ analyzeHotColdPatterns h 2, 0 ≤ c.weightedScore)
    (htm : 0 < maxQ ((analyzeRecentTrends h 10).map TrendRec.momentum))
    (hgm : 0 < maxQ ((analyzeNumberGaps h).map GapRec.gapRatio))
    (hcm : 0 < maxQ ((analyzeHotColdPatterns h 2).map HotColdRec.weightedScore)) :
    ∀ p ∈ generatePredictions h, 0 ≤ p.score ∧ p.score ≤ 1 ∧ p.confidence ≤ 100 := by
  intro p hp
  simp only [generatePredictions] at hp
  have hp2 := List.take_subset _ _ hp
  rw [List.mem_insertionSort, List.mem_map] at hp2
  obtain ⟨e, he, hpe⟩ := hp2
  set nT := normalizeScores TrendRec.number TrendRec.momentum (analyzeRecentTrends h 10)
    with hnT
  set nG := normalizeScores GapRec.number GapRec.gapRatio (analyzeNumberGaps h) with hnG
  set nH := normalizeScores HotColdRec.number HotColdRec.weightedScore
    (analyzeHotColdPatterns h 2) with hnH
  have hTb : ∀ x ∈ nT, 0 ≤ x.2 ∧ x.2 ≤ 1 := by
    rw [hnT]; exact normalizeScores_bounds _ _ _ htnn htm
  have hGb : ∀ x ∈ nG, 0 ≤ x.2 ∧ x.2 ≤ 1 := by
    rw [hnG]; exact normalizeScores_bounds _ _ _ hgnn hgm
  have hHb : ∀ x ∈ nH, 0 ≤ x.2 ∧ x.2 ≤ 1 := by
    rw [hnH]; exact normalizeScores_bounds _ _ _ hcnn hcm
  have hTnd : (nT.map Prod.fst).Nodup := by
    rw [hnT, normalizeScores_fst]; exact analyzeRecentTrends_numbers_nodup h 10
  have hGnd : (nG.map Prod.fst).Nodup := by
    rw [hnG, normalizeScores_fst]; exact analyzeNumberGaps_numbers_nodup h
  have hHnd : (nH.map Prod.fst).Nodup := by
    rw [hnH, normalizeScores_fst]; exact analyzeHotColdPatterns_numbers_nodup h 2
  have hCnd : ((addWeighted (addWeighted (addWeighted [] nT (4 / 10)) nG (3 / 10)) nH
      (3 / 10)).map Prod.fst).Nodup :=
    nodup_fst_addWeighted _ _ _
      (nodup_fst_addWeighted _ _ _ (nodup_fst_addWeighted _ _ _ (by simp)))
  have hval := getAssocD_of_mem_nodup _ e 0 hCnd he
  rw [getAssocD_addWeighted, getAssocD_addWeighted, getAssocD_addWeighted] at hval
  have hST := filter_key_sum_bound nT e.1 hTnd hTb
  have hSG := filter_key_sum_bound nG e.1 hGnd hGb
  have hSH := filter_key_sum_bound nH e.1 hHnd hHb
  have hgz : getAssocD ([] : List (Nat × ℚ)) e.1 0 = 0 := rfl
  rw [hgz] at hval
  have h0 : 0 ≤ e.2 := by
    rw [← hval]
    have := hST.1
    have := hSG.1
    have := hSH.1
    positivity
  have h1 : e.2 ≤ 1 := by
    rw [← hval]
    linarith [hST.1, hST.2, hSG.1, hSG.2, hSH.1, hSH.2]
  subst hpe
  refine ⟨h0, h1, ?_⟩
  show e.2 * 100 ≤ 100
  linarith

/-- C10 witness: `generatePredictions_score_in_unit` applied to the
two-draw history `{1: [], 2: [5]}`, on which all three metric sets are the
singleton for the number 5 with positive values. -/
theorem generatePredictions_score_in_unit_witness :
    ∃ p ∈ generatePredictions [(1, []), (2, [5])],
      0 ≤ p.score ∧ p.score ≤ 1 ∧ p.confidence ≤ 100 := by
  obtain ⟨p, hp⟩ := List.exists_mem_of_ne_nil
    (generatePredictions [(1, []), (2, [5])]) (by decide)
  refine ⟨p, hp, ?_⟩
  revert hp
  revert p
  have htrendsEval : analyzeRecentTrends [(1, []), (2, [5])] 10 =
      [{ number := 5, recentFrequency := 1, momentum := 1 / 10 }] := by
    simp only [analyzeRecentTrends]
    rw [(by decide : (((entriesDesc [(1, []), (2, [5])]).take 10).flatMap Prod.snd) = [5])]
    rw [(by decide : ([5] : List Nat).foldl
      (fun m num => setAssoc m num (getAssocD m num 0 + 1)) [] = [(5, 1)])]
    norm_num [List.insertionSort, List.orderedInsert]
  have hgaps1 : (gapScan [(1, []), (2, [5])]).1 = [(5, [1])] := by decide
  have hgaps2 : getAssocD (gapScan [(1, []), (2, [5])]).2 5 0 = 1 := by decide
  have hgapsEval : analyzeNumberGaps [(1, []), (2, [5])] =
      [{ number := 5, currentGap := 1, averageGap := 1, gapRatio := 1 }] := by
    simp only [analyzeNumberGaps, hgaps1, hgaps2, List.map_cons, List.map_nil]
    norm_num [List.insertionSort, List.orderedInsert]
  have hhotEval : analyzeHotColdPatterns [(1, []), (2, [5])] 2 =
      [{ number := 5, weightedScore := 2, recentPerformance := 1 / 20 }] := by
    simp only [analyzeHotColdPatterns]
    rw [(by decide : entriesDesc [(1, []), (2, [5])] = [(2, [5]), (1, [])])]
    rw [(by decide : ([(2, [5]), (1, [])] : History).take 20 = [(2, [5]), (1, [])])]
    rw [(by decide : ([(2, [5]), (1, [])] : History).drop 20 = [])]
    norm_num [List.foldl_cons, List.foldl_nil, setAssoc, getAssocD,
      List.insertionSort, List.orderedInsert, List.filter]
  apply generatePredictions_score_in_unit
  · rw [htrendsEval]; simp
  · rw [hgapsEval]; simp
  · rw [hhotEval]; simp
  · rw [htrendsEval]
    intro t ht
    simp only [List.mem_singleton] at ht
    subst ht
    norm_num
  · rw [hgapsEval]
    intro g hg
    simp only [List.mem_singleton] at hg
    subst hg
    norm_num
  · rw [hhotEval]
    intro c hc
    simp only [List.mem_singleton] at hc
    subst hc
    norm_num
  · rw [htrendsEval]
    show (0 : ℚ) < maxQ [1 / 10]
    norm_num [maxQ]
  · rw [hgapsEval]
    show (0 : ℚ) < maxQ [1]
    norm_num [maxQ]
  · rw [hhotEval]
    show (0 : ℚ) < maxQ [2]
    norm_num [maxQ]

lemma foldl_add_freq (f : Nat → Nat) (l : List Nat) :
    ∀ b : Nat, l.foldl (fun sum num => sum + f num) b = b + (l.map f).sum := by
  induction l with
  | nil => intro b; simp
  | cons x xs ih =>
    intro b
    simp only [List.foldl_cons, List.map_cons, List.sum_cons, ih (b + f x)]
    omega

lemma analyzeNumberCombinations_avg (cur : History) :
    ∀ r ∈ analyzeNumberCombinations cur,
      r.avgIndividualFrequency = ((r.numbers.map (freqCount cur)).sum : ℚ) / 3 := by
  intro r hr
  simp only [analyzeNumberCombinations, List.mem_map] at hr
  obtain ⟨e, he, hpe⟩ := hr
  have he2 := List.take_subset _ _ he
  rw [List.mem_insertionSort, List.mem_map] at he2
  obtain ⟨c, _, hce⟩ := he2
  subst hpe
  subst hce
  show ((c.1.foldl (fun sum num => sum + freqCount cur num) 0 : ℕ) : ℚ) / 3 =
    ((c.1.map (freqCount cur)).sum : ℚ) / 3
  rw [foldl_add_freq (freqCount cur) c.1 0]
  norm_num

lemma analyzeNumberCombinationsOfAllData_avg (allData cur : History) :
    ∀ r ∈ analyzeNumberCombinationsOfAllData allData cur,
      r.avgIndividualFrequency = ((r.numbers.map (freqCount cur)).sum : ℚ) / 3 := by
  intro r hr
  simp only [analyzeNumberCombinationsOfAllData, List.mem_map] at hr
  obtain ⟨e, he, hpe⟩ := hr
  have he2 := List.take_subset _ _ he
  rw [List.mem_insertionSort, List.mem_map] at he2
  obtain ⟨c, _, hce⟩ := he2
  subst hpe
  subst hce
  show ((c.1.foldl (fun sum num => sum + freqCount cur num) 0 : ℕ) : ℚ) / 3 =
    ((c.1.map (freqCount cur)).sum : ℚ) / 3
  rw [foldl_add_freq (freqCount cur) c.1 0]
  norm_num

/-- C8 (amended): in both combination analyzers, `avgIndividualFrequency`
is the mean of the three member numbers' occurrence counts as computed by
FrequencyCounter (`getNumberCounts`) over the CURRENT-DAY history
(`locationsData[location + 'Counts']`).  For `analyzeNumberCombinations`
this is the same scope the combinations were counted over, as the claim
says; for `analyzeNumberCombinationsOfAllData` the combinations are counted
over the all-time history while the frequency lookups still come from the
current-day counts — a different scope, contradicting the claim there. -/
theorem comboAvg_scope (cur allData : History) :
    (∀ r ∈ analyzeNumberCombinations cur,
      r.avgIndividualFrequency = ((r.numbers.map (freqCount cur)).sum : ℚ) / 3) ∧
    (∀ r ∈ analyzeNumberCombinationsOfAllData allData cur,
      r.avgIndividualFrequency = ((r.numbers.map (freqCount cur)).sum : ℚ) / 3) :=
  ⟨analyzeNumberCombinations_avg cur, analyzeNumberCombinationsOfAllData_avg allData cur⟩

/-- C8 witness: `comboAvg_scope` applied to the one-draw history
`{1: [1, 2, 3]}` and the record for the triple `[1, 2, 3]`. -/
theorem comboAvg_scope_witness :
    ∃ r ∈ analyzeNumberCombinations [(1, [1, 2, 3])],
      r.avgIndividualFrequency = ((r.numbers.map (freqCount [(1, [1, 2, 3])])).sum : ℚ) / 3 := by
  have hmem : ∃ r ∈ analyzeNumberCombinations [(1, [1, 2, 3])], r.numbers = [1, 2, 3] := by
    decide
  obtain ⟨r, hr, _⟩ := hmem
  exact ⟨r, hr, (comboAvg_scope [(1, [1, 2, 3])] []).1 r hr⟩

/-- C8 counterexample: with current-day history `{1: [1, 2, 3]}` and
all-time history `{1: [1, 2, 3], 2: [1, 2, 3]}`, the all-time analyzer's
record for the triple `[1, 2, 3]` has `avgIndividualFrequency = 1` (the
current-day counts), not the mean 2 of the numbers' counts over the
all-time scope the combinations were counted over. -/
theorem comboAvg_scope_counterexample :
    ∃ r ∈ analyzeNumberCombinationsOfAllData [(1, [1, 2, 3]), (2, [1, 2, 3])] [(1, [1, 2, 3])],
      r.avgIndividualFrequency ≠
        ((r.numbers.map (freqCount [(1, [1, 2, 3]), (2, [1, 2, 3])])).sum : ℚ) / 3 := by
  have hmem : ∃ r ∈ analyzeNumberCombinationsOfAllData [(1, [1, 2, 3]), (2, [1, 2, 3])]
      [(1, [1, 2, 3])], r.numbers = [1, 2, 3] := by decide
  obtain ⟨r, hr, hnum⟩ := hmem
  have havg := analyzeNumberCombinationsOfAllData_avg [(1, [1, 2, 3]), (2, [1, 2, 3])]
    [(1, [1, 2, 3])] r hr
  refine ⟨r, hr, ?_⟩
  rw [havg, hnum]
  have f1 : freqCount [(1, [1, 2, 3])] 1 = 1 := by decide
  have f2 : freqCount [(1, [1, 2, 3])] 2 = 1 := by decide
  have f3 : freqCount [(1, [1, 2, 3])] 3 = 1 := by decide
  have g1 : freqCount [(1, [1, 2, 3]), (2, [1, 2, 3])] 1 = 2 := by decide
  have g2 : freqCount [(1, [1, 2, 3]), (2, [1, 2, 3])] 2 = 2 := by decide
  have g3 : freqCount [(1, [1, 2, 3]), (2, [1, 2, 3])] 3 = 2 := by decide
  simp only [List.map_cons, List.map_nil, List.sum_cons, List.sum_nil, f1, f2, f3,
    g1, g2, g3]
  norm_num

end Keno
